import Mathlib

set_option maxHeartbeats 1000000

namespace Dominate

/-!
Shallow embedding of the dominate repository (dominate/util.py,
dominate/dom_tag.py, dominate/document.py).  Python strings are modelled as
Lean strings (lists of characters); Python dicts of attributes as association
lists in insertion order with unique keys; the per-thread context stack as an
explicit state record.
-/

/-! ### util.py: escape -/

/-- Python str.replace for a single-character pattern: every occurrence of the
character c is replaced by the list rep (left to right, equivalent to the
per-occurrence semantics of str.replace for one-character needles). -/
def replaceChar (c : Char) (rep : List Char) : List Char → List Char
  | [] => []
  | x :: xs =>
    if x = c then rep ++ replaceChar c rep xs else x :: replaceChar c rep xs

/-- util.escape on character lists: replace the ampersand first, then the
angle brackets, then (when quote is set) the double quote. -/
def escapeList (quote : Bool) (cs : List Char) : List Char :=
  let d1 := replaceChar '&' ("&amp;".data) cs
  let d2 := replaceChar '<' ("&lt;".data) d1
  let d3 := replaceChar '>' ("&gt;".data) d2
  if quote then replaceChar '"' ("&quot;".data) d3 else d3

/-- util.escape: escapes special characters into their html entities. -/
def escape (quote : Bool) (s : String) : String := ⟨escapeList quote s.data⟩

/-! ### util.py: unescape -/

/-- The util._unescape named-entity table; names not in the table map to the
code of the question mark (63), as in the source's .get with default ord of
the question mark. -/
def entCode (name : List Char) : Nat :=
  if name = "quot".data then 34
  else if name = "amp".data then 38
  else if name = "lt".data then 60
  else if name = "gt".data then 62
  else if name = "nbsp".data then 32
  else if name = "yuml".data then 255
  else 63

/-- Python int() on the decimal digit characters captured by the regex. -/
def digitsVal (ds : List Char) : Nat :=
  ds.foldl (fun n c => n * 10 + (c.toNat - 48)) 0

/-- The second alternative of the util.unescape regex: one or more
non-semicolon characters followed by a semicolon; the replacement character
comes from the entity table. -/
def matchEntName (rest : List Char) : Option (Char × List Char) :=
  let body := rest.takeWhile (fun c => c ≠ ';')
  let after := rest.drop body.length
  if body ≠ [] ∧ after.head? = some ';' then
    some (Char.ofNat (entCode body), after.tail)
  else none

/-- A match of the util.unescape regex at the start of the list: an ampersand
followed either by a hash, decimal digits and a semicolon (numeric character
reference) or by non-semicolon characters and a semicolon (named entity).
Returns the replacement character and the remainder after the match, or none
if no match starts here. -/
def matchAt (cs : List Char) : Option (Char × List Char) :=
  match cs with
  | [] => none
  | c :: rest =>
    if c = '&' then
      match rest with
      | [] => none
      | d :: ds =>
        if d = '#' then
          let digits := ds.takeWhile Char.isDigit
          let after := ds.drop digits.length
          if digits ≠ [] ∧ after.head? = some ';' then
            some (Char.ofNat (digitsVal digits), after.tail)
          else matchEntName rest
        else matchEntName rest
    else none

theorem matchEntName_length {rest : List Char} {p : Char × List Char}
    (h : matchEntName rest = some p) : p.2.length ≤ rest.length := by
  simp only [matchEntName] at h
  split at h
  · cases h
    simp only [List.length_tail, List.length_drop]
    omega
  · cases h

theorem matchAt_length {cs : List Char} {p : Char × List Char}
    (h : matchAt cs = some p) : p.2.length < cs.length := by
  match cs with
  | [] => cases h
  | c :: rest =>
    simp only [matchAt] at h
    split at h
    · match rest with
      | [] => cases h
      | d :: ds =>
        simp only at h
        split at h
        · split at h
          · cases h
            simp only [List.length_tail, List.length_drop, List.length_cons]
            omega
          · have := matchEntName_length h
            simp only [List.length_cons] at *
            omega
        · have := matchEntName_length h
          simp only [List.length_cons] at *
          omega
    · cases h

/-- The scanning loop of util.unescape: repeatedly search for the leftmost
regex match, copy the text before it, emit the replacement character and
continue after the match. -/
def unescapeAux (cs : List Char) : List Char :=
  match h2 : matchAt cs with
  | some p => p.1 :: unescapeAux p.2
  | none =>
    match cs with
    | [] => []
    | c :: rest => c :: unescapeAux rest
termination_by cs.length
decreasing_by
  · exact matchAt_length h2
  · simp

/-- util.unescape: unescapes html entities, the opposite of escape. -/
def unescape (s : String) : String := ⟨unescapeAux s.data⟩

/-! ### util.py: url escaping -/

/-- One hex digit, uppercase, as produced by the percent-2X format. -/
def hexDigit (n : Nat) : Char :=
  if n < 10 then Char.ofNat (48 + n) else Char.ofNat (55 + n)

/-- Two-digit uppercase hex of a code point below 256 (all reserved
characters have codes between 0x20 and 0x40, so the format never pads). -/
def hex2 (n : Nat) : List Char := [hexDigit (n / 16 % 16), hexDigit (n % 16)]

/-- Membership in util._reserved, the eleven characters of the string of
semicolon, slash, question mark, colon, at, ampersand, equals, plus, dollar,
comma and space. -/
def isReserved (c : Char) : Bool :=
  c = ';' || c = '/' || c = '?' || c = ':' || c = '@' || c = '&' ||
  c = '=' || c = '+' || c = '$' || c = ',' || c = ' '

/-- util.url_escape on character lists: each reserved character is replaced
by a percent escape via util._replace_map, every other character is kept. -/
def url_escapeList : List Char → List Char
  | [] => []
  | c :: cs =>
    (if isReserved c then '%' :: hex2 c.toNat else [c]) ++ url_escapeList cs

/-- util.url_escape. -/
def url_escape (s : String) : String := ⟨url_escapeList s.data⟩

/-- A hexadecimal digit as accepted by the url_unescape regex class. -/
def isHexDigitC (c : Char) : Bool :=
  decide (('0' ≤ c ∧ c ≤ '9') ∨ ('a' ≤ c ∧ c ≤ 'f') ∨ ('A' ≤ c ∧ c ≤ 'F'))

/-- Value of one hexadecimal digit, as Python int(hex, 16) uses it. -/
def hexVal (c : Char) : Nat :=
  if c ≤ '9' then c.toNat - 48 else if 'a' ≤ c then c.toNat - 87 else c.toNat - 55

/-- The scanning loop of util.url_unescape (re.sub): a percent sign followed
by two hex digits is replaced by the decoded character; everywhere else
scanning advances one character. -/
def url_unescapeAux : List Char → List Char
  | [] => []
  | c :: rest =>
    if c = '%' then
      match rest with
      | a :: b :: rest2 =>
        if isHexDigitC a && isHexDigitC b then
          Char.ofNat (hexVal a * 16 + hexVal b) :: url_unescapeAux rest2
        else '%' :: url_unescapeAux (a :: b :: rest2)
      | [a] => '%' :: url_unescapeAux [a]
      | [] => ['%']
    else c :: url_unescapeAux rest
termination_by cs => cs.length
decreasing_by
  all_goals simp_all [List.length_cons]
  omega

/-- util.url_unescape. -/
def url_unescape (s : String) : String := ⟨url_unescapeAux s.data⟩

/-! ### Round trip of url_escape and url_unescape (claim C10) -/

theorem isHexDigitC_hexDigit {n : Nat} (h : n < 16) :
    isHexDigitC (hexDigit n) = true := by
  interval_cases n <;> decide

theorem hexVal_hexDigit {n : Nat} (h : n < 16) : hexVal (hexDigit n) = n := by
  interval_cases n <;> decide

theorem hexDigit_upper_or_digit {n : Nat} (h : n < 16) :
    (hexDigit n).isDigit ∨ (hexDigit n).isUpper := by
  interval_cases n <;> first | exact Or.inl (by decide) | exact Or.inr (by decide)

theorem url_unescapeAux_percent {n : Nat} (h : n < 256) (rest : List Char) :
    url_unescapeAux ('%' :: hex2 n ++ rest) = Char.ofNat n :: url_unescapeAux rest := by
  have h1 : n / 16 % 16 < 16 := Nat.mod_lt _ (by norm_num)
  have h0 : n % 16 < 16 := Nat.mod_lt _ (by norm_num)
  simp only [hex2, List.cons_append, List.nil_append, url_unescapeAux,
    if_pos rfl, isHexDigitC_hexDigit h1, isHexDigitC_hexDigit h0,
    Bool.and_self, if_true, hexVal_hexDigit h1, hexVal_hexDigit h0]
  congr 2
  omega

theorem reserved_toNat_lt {c : Char} (h : isReserved c = true) : c.toNat < 256 := by
  simp only [isReserved, Bool.or_eq_true, decide_eq_true_eq] at h
  casesm* _ ∨ _ <;> subst_vars <;> decide

theorem url_unescapeAux_cons_ne {c : Char} (h : ¬c = '%') (rest : List Char) :
    url_unescapeAux (c :: rest) = c :: url_unescapeAux rest := by
  rw [url_unescapeAux.eq_def]
  dsimp only
  rw [if_neg h]

theorem url_roundtrip_aux (cs : List Char) (h : ∀ c ∈ cs, c ≠ '%') :
    url_unescapeAux (url_escapeList cs) = cs := by
  induction cs with
  | nil => simp [url_escapeList, url_unescapeAux]
  | cons c cs ih =>
    have hc : c ≠ '%' := h c (List.mem_cons_self ..)
    have hrest : ∀ x ∈ cs, x ≠ '%' := fun x hx => h x (List.mem_cons_of_mem _ hx)
    rw [url_escapeList]
    by_cases hr : isReserved c = true
    · rw [if_pos hr,
        url_unescapeAux_percent (reserved_toNat_lt hr) (url_escapeList cs),
        Char.ofNat_toNat, ih hrest]
    · rw [if_neg hr, List.singleton_append, url_unescapeAux_cons_ne hc, ih hrest]

/-- Claim C10: url_escape replaces exactly the reserved characters by a
percent sign followed by two uppercase hexadecimal digits, leaves every other
character unchanged, and for every string with no percent character
url_unescape inverts url_escape. -/
theorem c10_url_escape_roundtrip (s : String) (h : ∀ c ∈ s.data, c ≠ '%') :
    url_unescape (url_escape s) = s ∧
    (∀ c, isReserved c = true →
      url_escapeList [c] = '%' :: hex2 c.toNat ∧
      ∀ d ∈ hex2 c.toNat, d.isDigit ∨ d.isUpper) ∧
    (∀ c, isReserved c = false → url_escapeList [c] = [c]) := by
  refine ⟨?_, ?_, ?_⟩
  · unfold url_unescape url_escape
    rw [url_roundtrip_aux s.data h]
  · intro c hc
    refine ⟨by simp [url_escapeList, hc], ?_⟩
    intro d hd
    have h1 : c.toNat / 16 % 16 < 16 := Nat.mod_lt _ (by norm_num)
    have h0 : c.toNat % 16 < 16 := Nat.mod_lt _ (by norm_num)
    simp only [hex2, List.mem_cons, List.not_mem_nil, or_false] at hd
    rcases hd with rfl | rfl
    · exact hexDigit_upper_or_digit h1
    · exact hexDigit_upper_or_digit h0
  · intro c hc
    simp [url_escapeList, hc]

/-- Witness for claim C10 at a concrete percent-free string. -/
theorem c10_url_escape_roundtrip_witness :
    (∀ c ∈ "a b&c".data, c ≠ '%') ∧ url_unescape (url_escape "a b&c") = "a b&c" :=
  ⟨by decide, (c10_url_escape_roundtrip "a b&c" (by decide)).1⟩

/-! ### Round trip of escape and unescape (claim C5) -/

theorem replaceChar_append (c : Char) (rep a b : List Char) :
    replaceChar c rep (a ++ b) = replaceChar c rep a ++ replaceChar c rep b := by
  induction a with
  | nil => rfl
  | cons x xs ih => by_cases h : x = c <;> simp [replaceChar, h, ih]

theorem escapeList_append (q : Bool) (a b : List Char) :
    escapeList q (a ++ b) = escapeList q a ++ escapeList q b := by
  cases q <;> simp [escapeList, replaceChar_append]

/-- Per-character description of escape with the quote flag set: each of the
four special characters becomes its entity, everything else is kept. -/
def escaped1 (c : Char) : List Char :=
  if c = '&' then "&amp;".data
  else if c = '<' then "&lt;".data
  else if c = '>' then "&gt;".data
  else if c = '"' then "&quot;".data
  else [c]

theorem escapeList_true_single (c : Char) : escapeList true [c] = escaped1 c := by
  by_cases h1 : c = '&'
  · subst h1; decide
  · by_cases h2 : c = '<'
    · subst h2; decide
    · by_cases h3 : c = '>'
      · subst h3; decide
      · by_cases h4 : c = '"'
        · subst h4; decide
        · simp [escapeList, replaceChar, escaped1, h1, h2, h3, h4]

theorem escapeList_true_cons (c : Char) (cs : List Char) :
    escapeList true (c :: cs) = escaped1 c ++ escapeList true cs := by
  have h : c :: cs = [c] ++ cs := rfl
  rw [h, escapeList_append, escapeList_true_single]

theorem matchAt_amp (rest : List Char) :
    matchAt ('&' :: 'a' :: 'm' :: 'p' :: ';' :: rest) = some ('&', rest) := by
  simp +decide [matchAt, matchEntName, List.takeWhile_cons]

theorem matchAt_lt (rest : List Char) :
    matchAt ('&' :: 'l' :: 't' :: ';' :: rest) = some ('<', rest) := by
  simp +decide [matchAt, matchEntName, List.takeWhile_cons]

theorem matchAt_gt (rest : List Char) :
    matchAt ('&' :: 'g' :: 't' :: ';' :: rest) = some ('>', rest) := by
  simp +decide [matchAt, matchEntName, List.takeWhile_cons]

theorem matchAt_quot (rest : List Char) :
    matchAt ('&' :: 'q' :: 'u' :: 'o' :: 't' :: ';' :: rest) = some ('"', rest) := by
  simp +decide [matchAt, matchEntName, List.takeWhile_cons]

theorem matchAt_not_amp {c : Char} (h : ¬c = '&') (rest : List Char) :
    matchAt (c :: rest) = none := by
  simp [matchAt, h]

theorem unescapeAux_some {cs : List Char} {p : Char × List Char}
    (h : matchAt cs = some p) : unescapeAux cs = p.1 :: unescapeAux p.2 := by
  rw [unescapeAux.eq_def]
  split
  · next p2 heq => rw [h] at heq; cases heq; rfl
  · next heq => rw [h] at heq; cases heq

theorem unescapeAux_none {c : Char} {rest : List Char}
    (h : matchAt (c :: rest) = none) :
    unescapeAux (c :: rest) = c :: unescapeAux rest := by
  rw [unescapeAux.eq_def]
  split
  · next p2 heq => rw [h] at heq; cases heq
  · rfl

theorem unescape_escape_aux (cs : List Char) :
    unescapeAux (escapeList true cs) = cs := by
  induction cs with
  | nil =>
    rw [show escapeList true [] = [] from rfl, unescapeAux.eq_def]
    split
    · next p heq => simp [matchAt] at heq
    · rfl
  | cons c cs ih =>
    rw [escapeList_true_cons]
    by_cases h1 : c = '&'
    · subst h1
      rw [show escaped1 '&' = "&amp;".data from rfl]
      rw [show ("&amp;".data ++ escapeList true cs : List Char) =
        '&' :: 'a' :: 'm' :: 'p' :: ';' :: escapeList true cs from rfl]
      rw [unescapeAux_some (matchAt_amp (escapeList true cs)), ih]
    · by_cases h2 : c = '<'
      · subst h2
        rw [show escaped1 '<' = "&lt;".data from rfl]
        rw [show ("&lt;".data ++ escapeList true cs : List Char) =
          '&' :: 'l' :: 't' :: ';' :: escapeList true cs from rfl]
        rw [unescapeAux_some (matchAt_lt (escapeList true cs)), ih]
      · by_cases h3 : c = '>'
        · subst h3
          rw [show escaped1 '>' = "&gt;".data from rfl]
          rw [show ("&gt;".data ++ escapeList true cs : List Char) =
            '&' :: 'g' :: 't' :: ';' :: escapeList true cs from rfl]
          rw [unescapeAux_some (matchAt_gt (escapeList true cs)), ih]
        · by_cases h4 : c = '"'
          · subst h4
            rw [show escaped1 '"' = "&quot;".data from rfl]
            rw [show ("&quot;".data ++ escapeList true cs : List Char) =
              '&' :: 'q' :: 'u' :: 'o' :: 't' :: ';' :: escapeList true cs from rfl]
            rw [unescapeAux_some (matchAt_quot (escapeList true cs)), ih]
          · rw [show escaped1 c = [c] from by
              simp [escaped1, h1, h2, h3, h4]]
            rw [List.singleton_append,
              unescapeAux_none (matchAt_not_amp h1 (escapeList true cs)), ih]

/-- Claim C5: unescape inverts escape (with the quote flag set, the default).
This holds for every string, in particular for the strings within the
limitation stated by the spec: after escape, every ampersand in the output
starts one of the four introduced entities, whose name contains no semicolon,
so the unescape regex decodes exactly the introduced entities. -/
theorem c5_unescape_escape (s : String) : unescape (escape true s) = s := by
  unfold unescape escape
  rw [show (⟨escapeList true s.data⟩ : String).data = escapeList true s.data from rfl,
    unescape_escape_aux]

/-! ### dom_tag.py: the node model -/

/-- The stored value of an attribute: a string, or the Python sentinel False
that marks a boolean attribute to be omitted entirely at render time. -/
inductive AttrVal where
  | str (s : String)
  | boolFalse
deriving DecidableEq, Repr

/-- A value passed for a keyword attribute at construction time: a string or
a Python bool (clean_pair turns True into the attribute name and keeps
False). -/
inductive AttrArg where
  | str (s : String)
  | bool (b : Bool)
deriving DecidableEq, Repr

/-- A dom_tag tree node.  A tag carries its name, its attribute dict (an
association list in dict insertion order with unique keys), the three class
flags, the document reference (document objects are identified by numbers)
and the ordered children.  A text entry is a plain string stored in
dom_tag.children (dom_tag.add escapes strings before storing them) and is
emitted verbatim by _render_children. -/
inductive Node where
  | tag (name : String) (attributes : List (String × AttrVal))
      (single pretty inline : Bool) (doc : Option Nat)
      (children : List Node)
  | text (s : String)

/-- ASCII lowercasing of one character (Python's str.lower is unicode, which
agrees on the attribute names involved here). -/
def lowerChar (c : Char) : Char :=
  if 65 ≤ c.toNat ∧ c.toNat ≤ 90 then Char.ofNat (c.toNat + 32) else c

/-- Python str.split on a one-character separator. -/
def splitOnChar (c : Char) : List Char → List (List Char)
  | [] => [[]]
  | x :: xs =>
    match splitOnChar c xs with
    | [] => if x = c then [[], []] else [[x]]
    | g :: gs => if x = c then [] :: g :: gs else (x :: g) :: gs

/-- Python str.join of character-list groups with a one-character
separator. -/
def joinWith (sep : Char) : List (List Char) → List Char
  | [] => []
  | [g] => g
  | g :: gs => g ++ sep :: joinWith sep gs

/-- dom_tag.clean_attribute: normalize attribute names via the alias table,
strip one leading underscore, hyphenate data-, aria- and http-equiv names
(replacing every underscore and lowercasing) and colonize xlink, xml and
xmlns prefixed names (replacing only the first underscore and
lowercasing). -/
def clean_attribute (name0 : String) : String :=
  let a1 :=
    if name0 = "cls" then "class"
    else if name0 = "className" then "class"
    else if name0 = "class_name" then "class"
    else if name0 = "fr" then "for"
    else if name0 = "html_for" then "for"
    else if name0 = "htmlFor" then "for"
    else name0
  let d1 := a1.data
  let d2 :=
    match d1 with
    | c :: rest => if c = '_' then rest else d1
    | [] => d1
  let special := "data_".data.isPrefixOf d2 || "aria_".data.isPrefixOf d2
  let d3 :=
    if d2 = "http_equiv".data || special then (replaceChar '_' ['-'] d2).map lowerChar
    else d2
  let d4 :=
    match splitOnChar '_' d3 with
    | seg :: rest =>
      if seg = "xlink".data || seg = "xml".data || seg = "xmlns".data then
        match rest with
        | [] => d3.map lowerChar
        | _ :: _ => (seg ++ ':' :: joinWith '_' rest).map lowerChar
      else d3
    | [] => d3
  ⟨d4⟩

/-- dom_tag.clean_pair: normalize the name and expand the boolean shorthand:
a True value becomes the normalized attribute name itself, False is stored
as the sentinel and filtered out in render. -/
def clean_pair (name0 : String) (value : AttrArg) : String × AttrVal :=
  let a := clean_attribute name0
  match value with
  | .bool true => (a, .str a)
  | .bool false => (a, .boolFalse)
  | .str s => (a, .str s)

/-- Python dict assignment self.attributes[key] = value: overwrite in place
when the key is present, append otherwise (insertion order preserved). -/
def dictSet (m : List (String × AttrVal)) (k : String) (v : AttrVal) :
    List (String × AttrVal) :=
  match m with
  | [] => [(k, v)]
  | (k0, v0) :: rest =>
    if k0 = k then (k0, v) :: rest else (k0, v0) :: dictSet rest k v

/-- The comparison underlying Python's sorted on the attribute dict items:
tuples compare by first component first, and the keys of a dict are unique,
so the sort orders by key. -/
def attrLE (p q : String × AttrVal) : Prop := p.1 ≤ q.1

instance : DecidableRel attrLE := fun p q =>
  inferInstanceAs (Decidable (p.1 ≤ q.1))

instance : IsTotal (String × AttrVal) attrLE :=
  ⟨fun p q => le_total p.1 q.1⟩

instance : IsTrans (String × AttrVal) attrLE :=
  ⟨fun _ _ _ h1 h2 => le_trans h1 h2⟩

/-- sorted(self.attributes.items()) of dom_tag._render: a stable sort by key
(insertion sort is stable, like Python's sort; on unique keys every stable
key-sort yields the same list). -/
def sortedAttrs (m : List (String × AttrVal)) : List (String × AttrVal) :=
  m.insertionSort attrLE

/-- One attribute piece appended by the render loop: space, name, equals,
the double-quoted (already escaped) value. -/
def attrPiece (k v : String) : String := " " ++ k ++ "=\"" ++ v ++ "\""

/-- The attribute loop of dom_tag._render: iterate the sorted items and
append a piece, with the value escaped (quote flag set), for every value
that is not the sentinel False. -/
def attrsSB (m : List (String × AttrVal)) (sb : List String) : List String :=
  (sortedAttrs m).foldl
    (fun sb2 kv =>
      match kv.2 with
      | AttrVal.boolFalse => sb2
      | AttrVal.str v => sb2 ++ [attrPiece kv.1 (escape true v)]) sb

/-- The (name, escaped value) pairs the render loop emits, in emission
order. -/
def renderedAttrs (m : List (String × AttrVal)) : List (String × String) :=
  (sortedAttrs m).filterMap
    (fun kv =>
      match kv.2 with
      | AttrVal.boolFalse => none
      | AttrVal.str v => some (kv.1, escape true v))

/-- Python string repetition indent_str * indent_level. -/
def strRepeat : Nat → String → String
  | 0, _ => ""
  | n + 1, s => s ++ strRepeat n s

/-- The tag-name fix of _render: drop one trailing underscore (the source
indexes name[-1], so tag names are nonempty there). -/
def fixName (nm : String) : String :=
  if nm.data.getLast? = some '_' then ⟨nm.data.dropLast⟩ else nm

mutual
/-- dom_tag._render, threading the string-builder list sb exactly as the
source does: open angle and name, sorted attribute pieces, closing of the
open tag, then for a non-single tag the children, a conditional trailing
newline plus indentation, and the end tag. -/
def renderNode : Node → List String → Nat → String → Bool → Bool → List String
  | .text s, sb, _, _, _, _ => sb ++ [s]
  | .tag nm a sg pr _ _ cs, sb, level, ind, pretty, xhtml =>
    let pretty2 := pretty && pr
    let nm2 := fixName nm
    let sb1 := attrsSB a (sb ++ ["<", nm2])
    let sb2 := sb1 ++ [if sg && xhtml then " />" else ">"]
    if sg then sb2
    else
      let r := renderChildren cs sb2 (level + 1) ind pretty2 xhtml
      let sb3 := if pretty2 && !r.2 then r.1 ++ ["\n", strRepeat level ind] else r.1
      sb3 ++ ["</", nm2, ">"]

/-- dom_tag._render_children: returns the builder and the inline flag
(whether no newline was inserted for any child); a plain-string child is
appended verbatim, a tag child is preceded by newline plus indentation when
pretty rendering a non-inline tag. -/
def renderChildren : List Node → List String → Nat → String → Bool → Bool →
    List String × Bool
  | [], sb, _, _, _, _ => (sb, true)
  | x :: rest, sb, level, ind, pretty, xhtml =>
    match x with
    | .text s => renderChildren rest (sb ++ [s]) level ind pretty xhtml
    | .tag _ _ _ _ inl _ _ =>
      let nl := pretty && !inl
      let sb1 := if nl then sb ++ ["\n", strRepeat level ind] else sb
      let sb2 := renderNode x sb1 level ind pretty xhtml
      let r := renderChildren rest sb2 level ind pretty xhtml
      (r.1, r.2 && !nl)
end

/-- dom_tag.render: join the builder produced by _render at level 0. -/
def render (ind : String) (pretty xhtml : Bool) (n : Node) : String :=
  String.join (renderNode n [] 0 ind pretty xhtml)

mutual
/-- dom_tag.setdocument: set the document reference and propagate it to the
children; the loop in the source returns from the whole method at the first
child that is not a dom_tag, leaving every later child untouched, and the
method does nothing when the document already matches. -/
def setdocument (doc : Option Nat) : Node → Node
  | .text s => .text s
  | .tag nm a sg pr inl d cs =>
    if d = doc then .tag nm a sg pr inl d cs
    else .tag nm a sg pr inl doc (setdocChildren doc cs)

def setdocChildren (doc : Option Nat) : List Node → List Node
  | [] => []
  | x :: rest =>
    match x with
    | .text s => .text s :: rest
    | .tag _ _ _ _ _ _ _ => setdocument doc x :: setdocChildren doc rest
end

/-- An argument to dom_tag.add: a string (escaped and stored) or a tag. -/
inductive AddArg where
  | str (s : String)
  | node (n : Node)

/-- dom_tag.add for one argument, restricted to the string and dom_tag
branches (the context-stack side effect is modelled separately in the
context-state machine): a string is escaped and appended as a child; a tag
is appended and its subtree receives the parent's document. -/
def Node.addArg (parent : Node) (arg : AddArg) : Node :=
  match parent with
  | .text s => .text s
  | .tag nm a sg pr inl d cs =>
    match arg with
    | .str s => .tag nm a sg pr inl d (cs ++ [.text (escape true s)])
    | .node c => .tag nm a sg pr inl d (cs ++ [setdocument d c])

/-- The keyword-attribute loop of dom_tag.__init__ (and of attr): each pair
goes through clean_pair and then set_attribute, which for a string key is a
dict assignment. -/
def foldKwargs (a : List (String × AttrVal))
    (kwargs : List (String × AttrArg)) : List (String × AttrVal) :=
  kwargs.foldl (fun m kv =>
    let p2 := clean_pair kv.1 kv.2
    dictSet m p2.1 p2.2) a

/-- The attribute dict built by constructing a fresh tag with the given
keyword attributes. -/
def applyKwargs (kwargs : List (String × AttrArg)) : List (String × AttrVal) :=
  foldKwargs [] kwargs

/-- A tag as built by a tags-module constructor with the default flags:
positional arguments become children through add, keyword attributes go
through clean_pair into set_attribute, in that order, as in
dom_tag.__init__. -/
def mkTag (name : String) (args : List AddArg)
    (kwargs : List (String × AttrArg)) : Node :=
  let base := Node.tag name [] false true false none []
  match args.foldl Node.addArg base with
  | .tag nm a sg pr inl d cs => .tag nm (foldKwargs a kwargs) sg pr inl d cs
  | t => t

/-! ### Claim C1: the rendering example -/

/-- The tree of div(p("hello"), span("world", cls="hi")). -/
def exampleTree : Node :=
  mkTag "div"
    [.node (mkTag "p" [.str "hello"] []),
     .node (mkTag "span" [.str "world"] [("cls", .str "hi")])]
    []

/-- Claim C1: rendering div(p("hello"), span("world", cls="hi")) with the
default options (two-space indent, pretty, no xhtml) produces exactly the
expected string, with the cls keyword normalized to class. -/
theorem c1_render_example :
    render "  " true false exampleTree =
      "<div>\n  <p>hello</p>\n  <span class=\"hi\">world</span>\n</div>" := by
  decide

/-! ### Helper lemmas about the string builder -/

theorem joinFoldl (a : String) (l : List String) :
    l.foldl (fun r s => r ++ s) a = a ++ l.foldl (fun r s => r ++ s) "" := by
  induction l generalizing a with
  | nil => simp [List.foldl_nil, String.append_empty]
  | cons x xs ih =>
    simp only [List.foldl_cons]
    rw [ih (a ++ x), ih ("" ++ x), String.empty_append, String.append_assoc]

theorem join_cons (x : String) (l : List String) :
    String.join (x :: l) = x ++ String.join l := by
  simp only [String.join, List.foldl_cons]
  rw [joinFoldl ("" ++ x), String.empty_append]

theorem join_append (l1 l2 : List String) :
    String.join (l1 ++ l2) = String.join l1 ++ String.join l2 := by
  induction l1 with
  | nil => simp [String.join, String.empty_append]
  | cons x xs ih =>
    rw [List.cons_append, join_cons, join_cons, ih, String.append_assoc]

theorem mem_join_split {x : String} {l : List String} (h : x ∈ l) :
    ∃ pre post, String.join l = pre ++ x ++ post := by
  obtain ⟨s, t, rfl⟩ := List.append_of_mem h
  refine ⟨String.join s, String.join t, ?_⟩
  rw [join_append, join_cons, String.append_assoc]

theorem attrsSB_eq (m : List (String × AttrVal)) (sb : List String) :
    attrsSB m sb =
      sb ++ (renderedAttrs m).map (fun kv => attrPiece kv.1 kv.2) := by
  unfold attrsSB renderedAttrs
  generalize sortedAttrs m = l
  induction l generalizing sb with
  | nil => simp
  | cons kv rest ih =>
    obtain ⟨k, v⟩ := kv
    cases v with
    | boolFalse => simp only [List.foldl_cons, List.filterMap_cons]; rw [ih]
    | str s =>
      simp only [List.foldl_cons, List.filterMap_cons, List.map_cons]
      rw [ih, List.append_assoc]
      rfl

theorem ite_extends {c : Prop} [Decidable c] {sb l1 : List String}
    (A B : List String) (h : ∃ t, l1 = sb ++ t) :
    ∃ t, (if c then l1 ++ A else l1) ++ B = sb ++ t := by
  obtain ⟨t, rfl⟩ := h
  by_cases hc : c
  · rw [if_pos hc, List.append_assoc, List.append_assoc]
    exact ⟨_, rfl⟩
  · rw [if_neg hc, List.append_assoc]
    exact ⟨_, rfl⟩

theorem renderExtends (k : Nat) :
    (∀ n, sizeOf n ≤ k → ∀ sb level ind pretty xhtml,
      ∃ t, renderNode n sb level ind pretty xhtml = sb ++ t) ∧
    (∀ l, sizeOf l ≤ k → ∀ sb level ind pretty xhtml,
      ∃ t, (renderChildren l sb level ind pretty xhtml).1 = sb ++ t) := by
  induction k with
  | zero =>
    constructor
    · intro n hn
      exfalso; cases n <;> simp at hn
    · intro l hl
      exfalso; cases l <;> simp at hl
  | succ k ih =>
    constructor
    · intro n hn sb level ind pretty xhtml
      match n with
      | .text s => exact ⟨[s], rfl⟩
      | .tag nm a sg pr inl d cs =>
        have hcs : sizeOf cs ≤ k := by simp at hn; omega
        simp only [renderNode]
        split
        · simp only [attrsSB_eq, List.append_assoc]
          exact ⟨_, rfl⟩
        · simp only [attrsSB_eq, List.append_assoc]
          obtain ⟨t, ht⟩ := ih.2 cs hcs
            (sb ++ (["<", fixName nm] ++
              (List.map (fun kv => attrPiece kv.1 kv.2) (renderedAttrs a) ++
                [if (sg && xhtml) = true then " />" else ">"])))
            (level + 1) ind (pretty && pr) xhtml
          exact ite_extends _ _ ⟨_, by rw [ht, List.append_assoc]⟩
    · intro l hl sb level ind pretty xhtml
      match l with
      | [] => exact ⟨[], (List.append_nil sb).symm⟩
      | x :: rest =>
        have hx : sizeOf x ≤ k := by simp at hl; omega
        have hrest : sizeOf rest ≤ k := by simp at hl; omega
        match x with
        | .text s =>
          simp only [renderChildren]
          obtain ⟨t, ht⟩ := ih.2 rest hrest (sb ++ [s]) level ind pretty xhtml
          exact ⟨[s] ++ t, by rw [ht, List.append_assoc]⟩
        | .tag nm a sg pr inl d cs =>
          simp only [renderChildren]
          split
          · obtain ⟨t1, ht1⟩ := ih.1 (.tag nm a sg pr inl d cs) hx
              (sb ++ ["\n", strRepeat level ind]) level ind pretty xhtml
            obtain ⟨t2, ht2⟩ := ih.2 rest hrest
              (sb ++ (["\n", strRepeat level ind] ++ t1)) level ind pretty xhtml
            simp only [ht1, List.append_assoc, ht2]
            exact ⟨_, rfl⟩
          · obtain ⟨t1, ht1⟩ := ih.1 (.tag nm a sg pr inl d cs) hx
              sb level ind pretty xhtml
            obtain ⟨t2, ht2⟩ := ih.2 rest hrest (sb ++ t1) level ind pretty xhtml
            simp only [ht1, ht2, List.append_assoc]
            exact ⟨_, rfl⟩


/-! ### Attribute emission lemmas (claims C3 and C4) -/

theorem mem_attrsSB {piece : String} {a : List (String × AttrVal)}
    (hmem : piece ∈ (renderedAttrs a).map (fun kv => attrPiece kv.1 kv.2))
    (sb : List String) : piece ∈ attrsSB a sb := by
  rw [attrsSB_eq]
  exact List.mem_append_right _ hmem

theorem mem_renderNode_tag {piece : String} {a : List (String × AttrVal)}
    (hmem : piece ∈ (renderedAttrs a).map (fun kv => attrPiece kv.1 kv.2))
    (nm : String) (sg pr inl : Bool) (d : Option Nat) (cs : List Node)
    (sb : List String) (level : Nat) (ind : String) (pretty xhtml : Bool) :
    piece ∈ renderNode (.tag nm a sg pr inl d cs) sb level ind pretty xhtml := by
  simp only [renderNode]
  split
  · exact List.mem_append_left _ (mem_attrsSB hmem _)
  · apply List.mem_append_left
    generalize (if (sg && xhtml) = true then " />" else ">") = closeTok
    obtain ⟨t, ht⟩ := (renderExtends (sizeOf cs)).2 cs le_rfl
      (attrsSB a (sb ++ ["<", fixName nm]) ++ [closeTok])
      (level + 1) ind (pretty && pr) xhtml
    split
    · apply List.mem_append_left
      rw [ht]
      exact List.mem_append_left _ (List.mem_append_left _ (mem_attrsSB hmem _))
    · rw [ht]
      exact List.mem_append_left _ (List.mem_append_left _ (mem_attrsSB hmem _))

theorem renderedAttrs_mem_of_mem {m : List (String × AttrVal)} {k s : String}
    (h : (k, AttrVal.str s) ∈ m) : (k, escape true s) ∈ renderedAttrs m := by
  unfold renderedAttrs
  apply List.mem_filterMap.mpr
  exact ⟨(k, AttrVal.str s),
    (List.perm_insertionSort attrLE m).mem_iff.mpr h, rfl⟩

theorem nodup_keys_inj {m : List (String × AttrVal)}
    (hn : (m.map Prod.fst).Nodup) {p q : String × AttrVal}
    (hp : p ∈ m) (hq : q ∈ m) (hk : p.1 = q.1) : p = q := by
  induction m with
  | nil => cases hp
  | cons kv rest ih =>
    simp only [List.map_cons, List.nodup_cons] at hn
    rcases List.mem_cons.mp hp with rfl | hp2
    · rcases List.mem_cons.mp hq with rfl | hq2
      · rfl
      · exfalso
        exact hn.1 (hk ▸ List.mem_map_of_mem Prod.fst hq2)
    · rcases List.mem_cons.mp hq with rfl | hq2
      · exfalso
        exact hn.1 (hk ▸ List.mem_map_of_mem Prod.fst hp2)
      · exact ih hn.2 hp2 hq2

theorem renderedAttrs_not_mem {m : List (String × AttrVal)} {k : String}
    (hfalse : (k, AttrVal.boolFalse) ∈ m) (hn : (m.map Prod.fst).Nodup) :
    ∀ v, (k, v) ∉ renderedAttrs m := by
  intro v hv
  unfold renderedAttrs at hv
  obtain ⟨⟨k2, v2⟩, hmem, heq⟩ := List.mem_filterMap.mp hv
  cases v2 with
  | boolFalse => cases heq
  | str s =>
    simp only [Option.some.injEq, Prod.mk.injEq] at heq
    obtain ⟨hk2, _⟩ := heq
    have hmem2 : (k2, AttrVal.str s) ∈ m :=
      (List.perm_insertionSort attrLE m).mem_iff.mp hmem
    have := nodup_keys_inj hn hmem2 hfalse hk2
    cases this

/-- Claim C3: clean_pair turns the keyword selected=True into the stored
value "selected" and for a node whose attribute dict holds that pair the
rendered output contains the text of space, selected, equals,
double-quoted selected; clean_pair turns selected=False into the stored
sentinel False and for an attribute dict holding that sentinel (keys unique,
as in a dict) the render loop emits no selected attribute at all. -/
theorem c3_selected_boolean (nm : String) (m : List (String × AttrVal))
    (sg pr inl : Bool) (d : Option Nat) (cs : List Node)
    (ind : String) (pretty xhtml : Bool) :
    clean_pair "selected" (AttrArg.bool true) = ("selected", AttrVal.str "selected") ∧
    clean_pair "selected" (AttrArg.bool false) = ("selected", AttrVal.boolFalse) ∧
    (("selected", AttrVal.str "selected") ∈ m →
      ∃ pre post,
        render ind pretty xhtml (Node.tag nm m sg pr inl d cs) =
          pre ++ " selected=\"selected\"" ++ post) ∧
    (("selected", AttrVal.boolFalse) ∈ m → (m.map Prod.fst).Nodup →
      ∀ v, ("selected", v) ∉ renderedAttrs m) := by
  refine ⟨rfl, rfl, ?_, ?_⟩
  · intro hmem
    have h1 : ("selected", escape true "selected") ∈ renderedAttrs m :=
      renderedAttrs_mem_of_mem hmem
    have h2 := List.mem_map_of_mem (fun kv => attrPiece kv.1 kv.2) h1
    have h3 : attrPiece "selected" (escape true "selected") =
        " selected=\"selected\"" := rfl
    simp only [h3] at h2
    unfold render
    exact mem_join_split (mem_renderNode_tag h2 nm sg pr inl d cs [] 0 ind pretty xhtml)
  · intro hmem hn v
    exact renderedAttrs_not_mem hmem hn v

/-- Witness for claim C3: a concrete option tag with selected=True renders
with the attribute; with selected=False nothing with key selected is
emitted. -/
theorem c3_selected_boolean_witness :
    (("selected", AttrVal.str "selected") ∈ [("selected", AttrVal.str "selected")]) ∧
    (∃ pre post,
      render "  " true false
        (Node.tag "option" [("selected", AttrVal.str "selected")]
          false true false none []) =
        pre ++ " selected=\"selected\"" ++ post) ∧
    ("selected", "x") ∉ renderedAttrs [("selected", AttrVal.boolFalse)] :=
  ⟨by decide,
   (c3_selected_boolean "option" [("selected", AttrVal.str "selected")]
      false true false none [] "  " true false).2.2.1 (by decide),
   (c3_selected_boolean "option" [("selected", AttrVal.boolFalse)]
      false true false none [] "  " true false).2.2.2 (by decide) (by decide) "x"⟩

/-! ### Claim C4: attributes render in ascending key order -/

theorem dictSet_keys_mem {m : List (String × AttrVal)} {k x : String}
    {v : AttrVal} :
    x ∈ (dictSet m k v).map Prod.fst ↔ x ∈ m.map Prod.fst ∨ x = k := by
  induction m with
  | nil => simp [dictSet]
  | cons kv rest ih =>
    by_cases h : kv.1 = k
    · obtain ⟨k0, v0⟩ := kv
      simp only at h
      simp [dictSet, h]
      tauto
    · obtain ⟨k0, v0⟩ := kv
      simp only at h
      simp [dictSet, h, ih]
      tauto

theorem dictSet_nodup {m : List (String × AttrVal)}
    (h : (m.map Prod.fst).Nodup) (k : String) (v : AttrVal) :
    ((dictSet m k v).map Prod.fst).Nodup := by
  induction m with
  | nil => simp [dictSet]
  | cons kv rest ih =>
    obtain ⟨k0, v0⟩ := kv
    simp only [List.map_cons, List.nodup_cons] at h
    by_cases hk : k0 = k
    · simp [dictSet, hk]
      exact ⟨by simpa [hk] using h.1, h.2⟩
    · simp only [dictSet, if_neg hk, List.map_cons, List.nodup_cons]
      refine ⟨?_, ih h.2⟩
      rw [dictSet_keys_mem]
      rintro (hmem | rfl)
      · exact h.1 hmem
      · exact hk rfl

theorem foldKwargs_nodup (kwargs : List (String × AttrArg))
    {a : List (String × AttrVal)} (h : (a.map Prod.fst).Nodup) :
    ((foldKwargs a kwargs).map Prod.fst).Nodup := by
  induction kwargs generalizing a with
  | nil => exact h
  | cons kv rest ih =>
    simp only [foldKwargs, List.foldl_cons]
    exact ih (dictSet_nodup h _ _)

theorem applyKwargs_nodup (kwargs : List (String × AttrArg)) :
    ((applyKwargs kwargs).map Prod.fst).Nodup :=
  foldKwargs_nodup kwargs List.nodup_nil

theorem filterMap_keys_sublist (l : List (String × AttrVal)) :
    ((l.filterMap fun kv =>
      match kv.2 with
      | AttrVal.boolFalse => none
      | AttrVal.str v => some (kv.1, escape true v)).map Prod.fst).Sublist
      (l.map Prod.fst) := by
  induction l with
  | nil => simp
  | cons kv rest ih =>
    obtain ⟨k0, v0⟩ := kv
    cases v0 with
    | boolFalse =>
      simp only [List.filterMap_cons, List.map_cons]
      exact ih.cons k0
    | str s =>
      simp only [List.filterMap_cons, List.map_cons]
      exact ih.cons₂ k0

/-- Claim C4: for every sequence of keyword-attribute insertions into a
fresh tag, the names of the attributes emitted by the render loop are in
strictly ascending lexicographic order of the normalized stored names,
regardless of insertion order (the loop sorts the dict items and a dict has
unique keys). -/
theorem c4_attrs_sorted (kwargs : List (String × AttrArg)) :
    ((renderedAttrs (applyKwargs kwargs)).map Prod.fst).Pairwise
      (fun a b : String => a < b) := by
  have hnodup : ((applyKwargs kwargs).map Prod.fst).Nodup :=
    applyKwargs_nodup kwargs
  have hsorted0 : (sortedAttrs (applyKwargs kwargs)).Pairwise attrLE :=
    List.sorted_insertionSort attrLE (applyKwargs kwargs)
  have hsorted : ((sortedAttrs (applyKwargs kwargs)).map Prod.fst).Pairwise
      (fun a b : String => a ≤ b) :=
    List.pairwise_map.mpr hsorted0
  have hne : ((sortedAttrs (applyKwargs kwargs)).map Prod.fst).Nodup := by
    have hp := List.perm_insertionSort attrLE (applyKwargs kwargs)
    exact ((hp.map Prod.fst).nodup_iff).mpr hnodup
  have hlt : ((sortedAttrs (applyKwargs kwargs)).map Prod.fst).Pairwise
      (fun a b : String => a < b) :=
    (hsorted.and hne).imp (fun h => lt_of_le_of_ne h.1 h.2)
  exact hlt.sublist (filterMap_keys_sublist _)


/-! ### Claim C6: document propagation through add -/

mutual
/-- Whether every tag of the subtree carries the given document reference
(text entries carry none and are ignored). -/
def allDocs (doc : Option Nat) : Node → Bool
  | .text _ => true
  | .tag _ _ _ _ _ d cs => decide (d = doc) && allDocsList doc cs

def allDocsList (doc : Option Nat) : List Node → Bool
  | [] => true
  | x :: rest => allDocs doc x && allDocsList doc rest
end

mutual
/-- Whether the subtree consists of tags only (no text entries anywhere). -/
def noText : Node → Bool
  | .text _ => false
  | .tag _ _ _ _ _ _ cs => noTextList cs

def noTextList : List Node → Bool
  | [] => true
  | x :: rest => noText x && noTextList rest
end

mutual
/-- Whether no tag of the subtree already carries the given document. -/
def allDocsNe (doc : Option Nat) : Node → Bool
  | .text _ => true
  | .tag _ _ _ _ _ d cs => decide (d ≠ doc) && allDocsNeList doc cs

def allDocsNeList (doc : Option Nat) : List Node → Bool
  | [] => true
  | x :: rest => allDocsNe doc x && allDocsNeList doc rest
end

theorem setdocAll (k : Nat) :
    (∀ n, sizeOf n ≤ k → ∀ doc, noText n = true → allDocsNe doc n = true →
      allDocs doc (setdocument doc n) = true) ∧
    (∀ l, sizeOf l ≤ k → ∀ doc, noTextList l = true → allDocsNeList doc l = true →
      allDocsList doc (setdocChildren doc l) = true) := by
  induction k with
  | zero =>
    constructor
    · intro n hn
      exfalso; cases n <;> simp at hn
    · intro l hl
      exfalso; cases l <;> simp at hl
  | succ k ih =>
    constructor
    · intro n hn doc ht hne
      match n with
      | .text s => cases ht
      | .tag nm a sg pr inl d cs =>
        have hcs : sizeOf cs ≤ k := by simp at hn; omega
        simp only [allDocsNe, Bool.and_eq_true, decide_eq_true_eq] at hne
        simp only [noText] at ht
        rw [setdocument, if_neg hne.1]
        simp only [allDocs, Bool.and_eq_true, decide_eq_true_eq]
        exact ⟨trivial, ih.2 cs hcs doc ht hne.2⟩
    · intro l hl doc ht hne
      match l with
      | [] => rfl
      | x :: rest =>
        have hx : sizeOf x ≤ k := by simp at hl; omega
        have hrest : sizeOf rest ≤ k := by simp at hl; omega
        simp only [noTextList, Bool.and_eq_true] at ht
        simp only [allDocsNeList, Bool.and_eq_true] at hne
        match x with
        | .text s => cases ht.1
        | .tag nm a sg pr inl d cs =>
          simp only [setdocChildren, allDocsList, Bool.and_eq_true]
          exact ⟨ih.1 _ hx doc ht.1 hne.1, ih.2 rest hrest doc ht.2 hne.2⟩

/-- Claim C6 counterexample data: a parent holding document 0 and a child
whose children list has a text entry followed by a tag. -/
def c6parent : Node := .tag "div" [] false true false (some 0) []

/-- The child added in the C6 counterexample. -/
def c6child : Node :=
  .tag "section" [] false true false none
    [.text "x", .tag "span" [] false true false none []]

/-- Counterexample to claim C6 as stated: after add, the child hangs under
the parent with the propagation stopped at the text entry, so the span tag
that comes after the text child still carries no document, and the subtree
fails the all-documents-equal check. -/
theorem c6_counterexample :
    Node.addArg c6parent (.node c6child) =
      .tag "div" [] false true false (some 0)
        [.tag "section" [] false true false (some 0)
          [.text "x", .tag "span" [] false true false none []]] ∧
    allDocs (some 0)
      (.tag "section" [] false true false (some 0)
        [.text "x", .tag "span" [] false true false none []]) = false :=
  ⟨rfl, by decide⟩

/-- Claim C6 amended: after add(child) attaches a dom_tag child to a parent,
every tag in the child's subtree carries the parent's document, provided the
subtree contains no non-tag (text) child anywhere and no tag of the subtree
already carried the parent's document (the source stops the propagation loop
at the first non-tag child and prunes subtrees whose document already
matches). -/
theorem c6_setdocument_amended (nm : String) (a : List (String × AttrVal))
    (sg pr inl : Bool) (d : Option Nat) (cs : List Node) (c : Node)
    (h1 : noText c = true) (h2 : allDocsNe d c = true) :
    Node.addArg (.tag nm a sg pr inl d cs) (.node c) =
      .tag nm a sg pr inl d (cs ++ [setdocument d c]) ∧
    allDocs d (setdocument d c) = true :=
  ⟨rfl, (setdocAll (sizeOf c)).1 c le_rfl d h1 h2⟩

/-- Witness for the amended claim C6 on a concrete two-level all-tag
subtree. -/
theorem c6_setdocument_amended_witness :
    noText (Node.tag "section" [] false true false none
      [.tag "span" [] false true false none []]) = true ∧
    allDocsNe (some 0) (Node.tag "section" [] false true false none
      [.tag "span" [] false true false none []]) = true ∧
    allDocs (some 0) (setdocument (some 0)
      (Node.tag "section" [] false true false none
        [.tag "span" [] false true false none []])) = true :=
  ⟨by decide, by decide,
   (c6_setdocument_amended "div" [] false true false (some 0) []
      (Node.tag "section" [] false true false none
        [.tag "span" [] false true false none []])
      (by decide) (by decide)).2⟩


/-! ### Claims C7 and C8: the indexing interface -/

/-- A key passed to the indexing interface.  The constructor named other
stands for any hashable Python value that is neither an int nor a str (for
example a float or None); the bool case of Python is an int subclass and
falls under int. -/
inductive Key where
  | int (i : Int)
  | str (s : String)
  | other
deriving DecidableEq, Repr

/-- The Python exception kinds the indexing interface can raise. -/
inductive Err where
  | typeError
  | keyError
  | indexError
  | attributeError
deriving DecidableEq, Repr

/-- Clamping of one slice bound, as Python slice.indices does for a
nonnegative step: negative bounds count from the end, then the result is
clamped into the interval from zero to the length. -/
def sliceBound (n : Nat) (i : Int) : Nat :=
  (min (if i < 0 then i + (n : Int) else i) (n : Int)).toNat

/-- Python del lst[k : k+1]: remove the elements of the clamped slice; when
the slice is empty this is a silent no-op. -/
def sliceDelete (l : List Node) (k : Int) : List Node :=
  let start := sliceBound l.length k
  let stop := sliceBound l.length (k + 1)
  l.take start ++ l.drop (max start stop)

/-- Python dict deletion del m[k] for the single entry with the key (keys of
a dict are unique). -/
def dictDelete (m : List (String × AttrVal)) (k : String) :
    List (String × AttrVal) :=
  match m with
  | [] => []
  | (k0, v0) :: rest => if k0 = k then rest else (k0, v0) :: dictDelete rest k

/-- Normalization of a Python list index: negative indexes count from the
end; out of range yields none (IndexError). -/
def pyNorm (n : Nat) (i : Int) : Option Nat :=
  let j := if i < 0 then i + (n : Int) else i
  if 0 ≤ j ∧ j < (n : Int) then some j.toNat else none

/-- Python list read l[i]. -/
def pyIndex (l : List Node) (i : Int) : Except Err Node :=
  match pyNorm l.length i with
  | some j =>
    match l.get? j with
    | some x => .ok x
    | none => .error .indexError
  | none => .error .indexError

/-- Python list write l[i] = v. -/
def pyIndexSet (l : List Node) (i : Int) (v : Node) : Option (List Node) :=
  (pyNorm l.length i).map (fun j => l.set j v)

/-- dom_tag.delete_attribute (also __delitem__): an integer key deletes the
slice [key, key+1) of the children (never failing); any other key is handed
to the attribute dict, whose deletion raises KeyError when the key is
absent — the dict holds only string keys, so a non-int non-str key always
raises KeyError.  The text case is unreachable from the claims (plain
strings are not dom_tags). -/
def delete_attribute : Node → Key → Except Err Node
  | .tag nm a sg pr inl d cs, .int i =>
    .ok (.tag nm a sg pr inl d (sliceDelete cs i))
  | .tag nm a sg pr inl d cs, .str k =>
    if (a.lookup k).isSome then .ok (.tag nm (dictDelete a k) sg pr inl d cs)
    else .error .keyError
  | .tag _ _ _ _ _ _ _, .other => .error .keyError
  | .text _, _ => .error .keyError

/-- dom_tag.__getitem__: integers read children (IndexError when out of
range: the source catches only KeyError, and list indexing raises
IndexError, which propagates); strings read attributes (the dict KeyError is
caught and re-raised as AttributeError); any other key type raises
TypeError. -/
def dom_getitem : Node → Key → Except Err (Node ⊕ AttrVal)
  | .tag _ _ _ _ _ _ cs, .int i => (pyIndex cs i).map Sum.inl
  | .tag _ a _ _ _ _ _, .str k =>
    match a.lookup k with
    | some v => .ok (.inr v)
    | none => .error .attributeError
  | .tag _ _ _ _ _ _ _, .other => .error .typeError
  | .text _, _ => .error .typeError

/-- dom_tag.set_attribute (also __setitem__), restricted to string values
(the only values the claims exercise): integers write a children slot,
strings write the attribute dict, any other key type raises TypeError. -/
def dom_setitem : Node → Key → String → Except Err Node
  | .tag nm a sg pr inl d cs, .int i, v =>
    match pyIndexSet cs i (.text v) with
    | some cs2 => .ok (.tag nm a sg pr inl d cs2)
    | none => .error .indexError
  | .tag nm a sg pr inl d cs, .str k, v =>
    .ok (.tag nm (dictSet a k (.str v)) sg pr inl d cs)
  | .tag _ _ _ _ _ _ _, .other, _ => .error .typeError
  | .text _, _, _ => .error .typeError

/-- Counterexample to claim C7 as stated: deleting child index 0 of a tag
with no children does not fail — the slice deletion silently no-ops and the
node is returned unchanged. -/
theorem c7_counterexample :
    delete_attribute (.tag "div" [] false true false none []) (Key.int 0) =
      .ok (.tag "div" [] false true false none []) := rfl

theorem sliceDelete_out_of_range {cs : List Node} {i : Int}
    (hout : (cs.length : Int) ≤ i ∨ i < -(cs.length : Int)) :
    sliceDelete cs i = cs := by
  rcases hout with h | h
  · have hs : sliceBound cs.length i = cs.length := by
      simp only [sliceBound]
      have : ¬i < 0 := by omega
      rw [if_neg this]
      omega
    have hs2 : sliceBound cs.length (i + 1) = cs.length := by
      simp only [sliceBound]
      have : ¬i + 1 < 0 := by omega
      rw [if_neg this]
      omega
    simp [sliceDelete, hs, hs2, List.take_length, List.drop_length]
  · have hs : sliceBound cs.length i = 0 := by
      simp only [sliceBound]
      have : i < 0 := by omega
      rw [if_pos this]
      omega
    have hs2 : sliceBound cs.length (i + 1) = 0 := by
      simp only [sliceBound]
      by_cases h1 : i + 1 < 0
      · rw [if_pos h1]; omega
      · rw [if_neg h1]; omega
    simp [sliceDelete, hs, hs2]

/-- Claim C7 amended: deleting a child through an integer index that
addresses no existing child silently leaves the node unchanged (slice
deletion never fails); deleting an absent string attribute key fails with
the missing-key (KeyError) condition, and the node is unchanged on
failure. -/
theorem c7_delete_amended (nm : String) (a : List (String × AttrVal))
    (sg pr inl : Bool) (d : Option Nat) (cs : List Node) (i : Int) (k : String)
    (hout : (cs.length : Int) ≤ i ∨ i < -(cs.length : Int))
    (habs : a.lookup k = none) :
    delete_attribute (.tag nm a sg pr inl d cs) (Key.int i) =
      .ok (.tag nm a sg pr inl d cs) ∧
    delete_attribute (.tag nm a sg pr inl d cs) (Key.str k) =
      .error Err.keyError := by
  constructor
  · simp only [delete_attribute, sliceDelete_out_of_range hout]
  · simp only [delete_attribute, habs, Option.isSome_none, Bool.false_eq_true,
      if_false]

/-- Witness for the amended claim C7 at a childless, attributeless tag. -/
theorem c7_delete_amended_witness :
    ((([] : List Node).length : Int) ≤ 5 ∨ (5 : Int) < -(([] : List Node).length : Int)) ∧
    (([] : List (String × AttrVal)).lookup "x" = none) ∧
    delete_attribute (.tag "div" [] false true false none []) (Key.int 5) =
      .ok (.tag "div" [] false true false none []) ∧
    delete_attribute (.tag "div" [] false true false none []) (Key.str "x") =
      .error Err.keyError := by
  refine ⟨by decide, by decide, ?_, ?_⟩
  · exact (c7_delete_amended "div" [] false true false none [] 5 "x"
      (by decide) (by decide)).1
  · exact (c7_delete_amended "div" [] false true false none [] 5 "x"
      (by decide) (by decide)).2

/-- Counterexample to claim C8 as stated: deleting with a key that is
neither int nor str does not raise the type-mismatch condition — the source
delete has no type check, the key falls into the attribute branch and raises
the not-found KeyError instead. -/
theorem c8_counterexample :
    delete_attribute (.tag "div" [] false true false none []) Key.other =
      .error Err.keyError ∧ Err.keyError ≠ Err.typeError :=
  ⟨rfl, by decide⟩

/-- Claim C8 amended: reading and writing through the indexing interface
with a key that is neither int nor str fail with the type-mismatch
condition, leaving the node unchanged; deleting with such a key is handed to
the attribute dict instead and fails with the not-found KeyError
condition. -/
theorem c8_invalid_key_amended (nm : String) (a : List (String × AttrVal))
    (sg pr inl : Bool) (d : Option Nat) (cs : List Node) (v : String) :
    dom_getitem (.tag nm a sg pr inl d cs) Key.other = .error Err.typeError ∧
    dom_setitem (.tag nm a sg pr inl d cs) Key.other v = .error Err.typeError ∧
    delete_attribute (.tag nm a sg pr inl d cs) Key.other = .error Err.keyError :=
  ⟨rfl, rfl, rfl⟩


/-! ### dom_tag context stack (claims C2 and C9) -/

/-- A frame of the with-context stack: the tag that was entered, the items
collected by _add_to_ctx (tags constructed while the frame was open) and the
used set (tags already attached elsewhere, excluded from the auto-attach on
exit).  Tags are identified by numbers; the used set is kept as a
duplicate-free list. -/
structure Frame where
  tag : Nat
  items : List Nat
  used : List Nat
deriving DecidableEq, Repr

/-- The construction state of one logical execution context: the children
list of every tag (fresh ids have the empty list), the stack of open frames
of dom_tag._with_contexts for this context (top at the head; the absent
dict entry and the empty list are interchangeable, since every use checks
truthiness), and the next fresh tag id. -/
structure CtxState where
  childrenOf : Nat → List Nat
  stack : List Frame
  nextId : Nat

/-- Pointwise update of the children map. -/
def upd (f : Nat → List Nat) (k : Nat) (v : List Nat) : Nat → List Nat :=
  fun x => if x = k then v else f x

/-- dom_tag._add_to_ctx: when a frame is open, append the new tag to the top
frame's collected items. -/
def registerCtx (id : Nat) (s : CtxState) : CtxState :=
  match s.stack with
  | [] => s
  | f :: rest => { s with stack := { f with items := f.items ++ [id] } :: rest }

/-- Construction of a fresh tag (dom_tag.__init__ with no arguments): give
it the next id, an empty children list, and register it in the open frame if
any. -/
def newTag (s : CtxState) : Nat × CtxState :=
  let id := s.nextId
  (id, registerCtx id
    { childrenOf := upd s.childrenOf id [], stack := s.stack, nextId := id + 1 })

/-- dom_tag.__enter__: push a fresh frame for the tag. -/
def enterCtx (id : Nat) (s : CtxState) : CtxState :=
  { s with stack := ⟨id, [], []⟩ :: s.stack }

/-- The used-marking inside dom_tag.add: when this context's stack is
nonempty, add the object to the top frame's used set. -/
def markUsedTop (id : Nat) (s : CtxState) : CtxState :=
  match s.stack with
  | [] => s
  | f :: rest =>
    { s with stack :=
        { f with used := if id ∈ f.used then f.used else f.used ++ [id] } :: rest }

/-- dom_tag.add for a dom_tag argument, at the context-stack level: mark the
object used in the top frame, then append it to the parent's children. -/
def addChild (parent obj : Nat) (s : CtxState) : CtxState :=
  let s1 := markUsedTop obj s
  { s1 with childrenOf := upd s1.childrenOf parent (s1.childrenOf parent ++ [obj]) }

/-- dom_tag.__exit__: pop the top frame and add every collected item that is
not in the popped frame's used set to the exited tag, via the full add (so
the item is also marked used in the frame below, if any).  Popping an empty
stack raises in Python and is not reached in the claims. -/
def exitCtx (node : Nat) (s : CtxState) : CtxState :=
  match s.stack with
  | [] => s
  | f :: rest =>
    f.items.foldl
      (fun acc item => if item ∈ f.used then acc else addChild node item acc)
      { s with stack := rest }

/-- get_current: the top frame's tag when the stack for the current context
is nonempty (a nonempty ctx list is truthy); otherwise the default when one
was supplied, and the ValueError with the no-current-context message when
not (the absent sentinel is the none default here). -/
def get_current (s : CtxState) (default : Option Nat) : Except String Nat :=
  match s.stack with
  | f :: _ => .ok f.tag
  | [] =>
    match default with
    | some d => .ok d
    | none => .error "no current context"

/-- Claim C9: get_current returns the tag of the top frame whenever at least
one frame is open (whether or not a default was supplied); with no open
frame it returns the supplied default, and fails with the no-current-context
ValueError exactly when no default was supplied. -/
theorem c9_get_current (f : Frame) (rest : List Frame)
    (co : Nat → List Nat) (nid d0 : Nat) (dflt : Option Nat) :
    get_current ⟨co, f :: rest, nid⟩ dflt = .ok f.tag ∧
    get_current ⟨co, [], nid⟩ (some d0) = .ok d0 ∧
    get_current ⟨co, [], nid⟩ none = .error "no current context" :=
  ⟨rfl, rfl, rfl⟩


/-- Scenario of the first half of claim C2: construct P, enter it, construct
the three siblings a, b, c, exit.  The ids assigned are P = nextId,
a = nextId+1, b = nextId+2, c = nextId+3. -/
def scenario1 (s : CtxState) : CtxState :=
  let rP := newTag s
  let s2 := enterCtx rP.1 rP.2
  let ra := newTag s2
  let rb := newTag ra.2
  let rc := newTag rb.2
  exitCtx rP.1 rc.2

/-- Scenario of the second half of claim C2: construct Q outside any frame,
construct P and enter it, construct a, b, c, explicitly add b to Q, exit P.
The ids are Q = nextId, P = nextId+1, a = nextId+2, b = nextId+3,
c = nextId+4. -/
def scenario2 (s : CtxState) : CtxState :=
  let rQ := newTag s
  let rP := newTag rQ.2
  let s2 := enterCtx rP.1 rP.2
  let ra := newTag s2
  let rb := newTag ra.2
  let rc := newTag rb.2
  exitCtx rP.1 (addChild rQ.1 rb.1 rc.2)

/-- Claim C2: from any quiescent state (no open frame, fresh ids unused),
entering P, constructing three sibling tags a, b, c and exiting leaves P
with exactly the children a, b, c in construction order; and if one of the
three (b) is explicitly added to a different node Q before the exit, it is
excluded from the auto-attach: P ends with a and c, Q with b, every other
node's children are unchanged, and b is a child of Q only, appearing exactly
once in the whole forest. -/
theorem c2_scoped_construction (s : CtxState)
    (hstack : s.stack = [])
    (hfresh : ∀ id, s.nextId ≤ id → s.childrenOf id = [])
    (hrefs : ∀ id x, x ∈ s.childrenOf id → x < s.nextId) :
    ((scenario1 s).childrenOf s.nextId =
        [s.nextId + 1, s.nextId + 2, s.nextId + 3] ∧
      (scenario1 s).stack = []) ∧
    ((scenario2 s).childrenOf (s.nextId + 1) = [s.nextId + 2, s.nextId + 4] ∧
      (scenario2 s).childrenOf s.nextId = [s.nextId + 3] ∧
      (∀ id, id ≠ s.nextId + 1 → id ≠ s.nextId →
        (scenario2 s).childrenOf id = s.childrenOf id) ∧
      (∀ id, id ≠ s.nextId →
        s.nextId + 3 ∉ (scenario2 s).childrenOf id)) := by
  obtain ⟨co, stk, n⟩ := s
  simp only at hfresh hrefs ⊢
  simp only at hstack
  subst hstack
  refine ⟨⟨?_, ?_⟩, ?_, ?_, ?_, ?_⟩
  · simp [scenario1, newTag, registerCtx, enterCtx, exitCtx, addChild,
      markUsedTop, upd]
  · simp [scenario1, newTag, registerCtx, enterCtx, exitCtx, addChild,
      markUsedTop, upd]
  · simp [scenario2, newTag, registerCtx, enterCtx, exitCtx, addChild,
      markUsedTop, upd]
  · simp [scenario2, newTag, registerCtx, enterCtx, exitCtx, addChild,
      markUsedTop, upd]
  · intro id hP hQ
    by_cases h2 : id = n + 2
    · subst h2
      simp [scenario2, newTag, registerCtx, enterCtx, exitCtx, addChild,
        markUsedTop, upd]
      exact hfresh (n + 2) (by omega)
    · by_cases h3 : id = n + 3
      · subst h3
        simp [scenario2, newTag, registerCtx, enterCtx, exitCtx, addChild,
          markUsedTop, upd]
        exact hfresh (n + 3) (by omega)
      · by_cases h4 : id = n + 4
        · subst h4
          simp [scenario2, newTag, registerCtx, enterCtx, exitCtx, addChild,
            markUsedTop, upd]
          exact hfresh (n + 4) (by omega)
        · simp [scenario2, newTag, registerCtx, enterCtx, exitCtx, addChild,
            markUsedTop, upd, hP, hQ, h2, h3, h4]
  · intro id hQ
    by_cases hP : id = n + 1
    · subst hP
      simp [scenario2, newTag, registerCtx, enterCtx, exitCtx, addChild,
        markUsedTop, upd]
    · by_cases h2 : id = n + 2
      · subst h2
        simp [scenario2, newTag, registerCtx, enterCtx, exitCtx, addChild,
          markUsedTop, upd]
      · by_cases h3 : id = n + 3
        · subst h3
          simp [scenario2, newTag, registerCtx, enterCtx, exitCtx, addChild,
            markUsedTop, upd]
        · by_cases h4 : id = n + 4
          · subst h4
            simp [scenario2, newTag, registerCtx, enterCtx, exitCtx, addChild,
              markUsedTop, upd]
          · simp [scenario2, newTag, registerCtx, enterCtx, exitCtx, addChild,
              markUsedTop, upd, hP, hQ, h2, h3, h4]
            intro hmem
            exact absurd (hrefs id (n + 3) hmem) (by omega)

/-- Witness for claim C2 at the empty initial state. -/
theorem c2_scoped_construction_witness :
    ((scenario1 ⟨fun _ => [], [], 0⟩).childrenOf 0 = [1, 2, 3] ∧
      (scenario1 ⟨fun _ => [], [], 0⟩).stack = []) ∧
    ((scenario2 ⟨fun _ => [], [], 0⟩).childrenOf 1 = [2, 4] ∧
      (scenario2 ⟨fun _ => [], [], 0⟩).childrenOf 0 = [3]) := by
  have h := c2_scoped_construction ⟨fun _ => [], [], 0⟩ rfl
    (fun id _ => rfl) (fun id x hx => absurd hx (List.not_mem_nil x))
  exact ⟨⟨h.1.1, h.1.2⟩, h.2.1, h.2.2.1⟩

end Dominate
